import Mathlib

/-!
Verification development for the ttrpg-session-manager repository.

Shallow embedding of the core components:
  - the fuzzy playlist matcher (src/lib/musicSearch.ts),
  - the audio playback engine (AudioManager, the revision that keeps
    per-playlist resume state),
  - the config import validator (src/lib/configManager.ts),
  - the session folder scanner (src/lib/sessionScanner.ts),
  - the document search wrapper (SearchManager).

JavaScript numbers are modelled as rationals where fractional arithmetic
occurs, strings as Lean strings (character lists), and Maps as association
lists.  Asynchronous audio element I/O (object URLs, fade timers) carries no
claim-relevant state and is abstracted to the fields the operations read and
write.
-/

namespace TSM

/-! ## Fuzzy matcher: src/lib/musicSearch.ts -/

/-- Character-wise lowercasing, modelling JavaScript toLowerCase on the
ASCII range used by playlist names. -/
def lowerStr (s : List Char) : List Char := s.map Char.toLower

/-- String-level lowercasing (toLowerCase). -/
def lowerS (s : String) : String := String.mk (lowerStr s.data)

/-- Does the text begin with the query?  Models JavaScript startsWith. -/
def startsWithL : List Char → List Char → Bool
  | _, [] => true
  | [], _ :: _ => false
  | c :: cs, q :: qs => c == q && startsWithL cs qs

/-- Does the query occur contiguously in the text?  Models JavaScript
String.includes. -/
def includesL : List Char → List Char → Bool
  | [], q => q.isEmpty
  | c :: cs, q => startsWithL (c :: cs) q || includesL cs q

/-- The subsequence scanning loop of fuzzyScore (src/lib/musicSearch.ts,
lines 50-60): walks the text once, consuming query characters in order,
tracking the current consecutive-match run, the longest such run, and the
total number of matched characters.  Returns the unconsumed query suffix,
the longest run, and the total. -/
def fuzzyLoop : List Char → List Char → Nat → Nat → Nat → List Char × Nat × Nat
  | _, [], _, maxC, total => ([], maxC, total)
  | [], q :: qs, _, maxC, total => (q :: qs, maxC, total)
  | c :: cs, q :: qs, consec, maxC, total =>
    if c == q then
      fuzzyLoop cs qs (consec + 1) (max maxC (consec + 1)) (total + 1)
    else
      fuzzyLoop cs (q :: qs) 0 maxC total

/-- fuzzyScore (src/lib/musicSearch.ts, lines 32-68).  The branch order is
that of the source: the substring (includes) test precedes the startsWith
test, exactly as in the code. -/
def fuzzyScore (text query : String) : ℚ :=
  if query.data = [] then 1
  else if text.data = [] then 0
  else
    let lt := lowerStr text.data
    let lq := lowerStr query.data
    if lt = lq then 100
    else if includesL lt lq then 80
    else if startsWithL lt lq then 90
    else
      match fuzzyLoop lt lq 0 0 0 with
      | (rest, maxC, total) =>
        if rest = [] then
          20 + ((total : ℚ) / (lt.length : ℚ)) * 30 +
            ((maxC : ℚ) / (lq.length : ℚ)) * 30
        else 0

/-! ## Audio playback engine: AudioManager

Embeds the AudioManager revision that keeps per-playlist resume state (the
PlaylistState map keyed by playlist id).  The HTMLAudioElement is abstracted
to the fields the engine reads and writes: the path of the loaded track, the
playback position, and the paused flag.  Crossfade volume ramps are timer
driven and carry no claim-relevant state; track load failures (the catch
branch of loadAndPlayTrack) are I/O and are not modelled: the transitions
below are the success paths. -/

/-- An audio file reference (kind audio is implicit in the type). -/
structure AudioFile where
  path : String
  name : String
deriving DecidableEq

/-- A named event playlist. -/
structure EventPlaylist where
  id : String
  name : String
  tracks : List AudioFile
deriving DecidableEq

/-- State saved per playlist to enable resume functionality. -/
structure PlaylistState where
  trackIndex : Nat
  currentTime : ℚ
deriving DecidableEq

/-- Replace or append a binding in an association list, modelling Map.set. -/
def alSet {α : Type} (k : String) (v : α) : List (String × α) → List (String × α)
  | [] => [(k, v)]
  | (k0, v0) :: rest => if k0 == k then (k, v) :: rest else (k0, v0) :: alSet k v rest

/-- Look up a binding in an association list, modelling Map.get. -/
def alGet {α : Type} (k : String) : List (String × α) → Option α
  | [] => none
  | (k0, v0) :: rest => if k0 == k then some v0 else alGet k rest

/-- Remove a binding from an association list, modelling Map.delete. -/
def alDel {α : Type} (k : String) : List (String × α) → List (String × α)
  | [] => []
  | (k0, v0) :: rest => if k0 == k then rest else (k0, v0) :: alDel k rest

/-- The playback mode of the engine. -/
inductive AudioMode where
  | bgm
  | event
deriving DecidableEq

/-- The mutable state of AudioManager. -/
structure AMState where
  currentMode : AudioMode
  bgmTracks : List AudioFile
  currentBgmIndex : Nat
  eventPlaylists : List (String × EventPlaylist)
  currentEventPlaylist : Option EventPlaylist
  currentEventIndex : Nat
  playlistStates : List (String × PlaylistState)
  bgmState : PlaylistState
  audioTrackPath : Option String
  audioCurrentTime : ℚ
  audioPaused : Bool
deriving DecidableEq

/-- loadAndPlayTrack (success path): swaps the audio source to the track and
restores the playback position when resuming (position 0 otherwise). -/
def loadAndPlayTrack (s : AMState) (track : AudioFile) (startTime : ℚ) : AMState :=
  { s with
    audioTrackPath := some track.path
    audioCurrentTime := startTime
    audioPaused := false }

/-- saveCurrentState: records the outgoing playlist's track index and
playback position, into bgmState in ambient mode and into the per-playlist
map (keyed by playlist id) in event mode. -/
def saveCurrentState (s : AMState) : AMState :=
  let ct := s.audioCurrentTime
  match s.currentMode with
  | AudioMode.bgm => { s with bgmState := ⟨s.currentBgmIndex, ct⟩ }
  | AudioMode.event =>
    match s.currentEventPlaylist with
    | some pl =>
      { s with playlistStates := alSet pl.id ⟨s.currentEventIndex, ct⟩ s.playlistStates }
    | none => s

/-- loadBGM: replaces the ambient track list and resets the in-memory track
index to 0.  The saved resume state (bgmState) is not touched. -/
def loadBGM (s : AMState) (tracks : List AudioFile) : AMState :=
  { s with bgmTracks := tracks, currentBgmIndex := 0 }

/-- loadEventPlaylists: clears the playlist map and re-registers the given
playlists keyed by id. -/
def loadEventPlaylists (s : AMState) (playlists : List EventPlaylist) : AMState :=
  { s with eventPlaylists := playlists.foldl (fun m p => alSet p.id p m) [] }

/-- playBGM: saves the outgoing state, switches to ambient mode at the
remembered index and position, falling back to index 0 when the remembered
index is out of range; no-ops (after the save) when no ambient tracks are
loaded. -/
def playBGM (s : AMState) : AMState :=
  let s1 := saveCurrentState s
  if s1.bgmTracks.length = 0 then s1
  else
    let s2 := { s1 with currentMode := AudioMode.bgm, currentBgmIndex := s1.bgmState.trackIndex }
    if s2.bgmTracks.length ≤ s2.currentBgmIndex then
      let s3 := { s2 with currentBgmIndex := 0, bgmState := ⟨0, 0⟩ }
      match s3.bgmTracks.get? s3.currentBgmIndex with
      | some t => loadAndPlayTrack s3 t s3.bgmState.currentTime
      | none => s3
    else
      match s2.bgmTracks.get? s2.currentBgmIndex with
      | some t => loadAndPlayTrack s2 t s2.bgmState.currentTime
      | none => s2

/-- startEvent: saves the outgoing state, then activates the named playlist
at its own remembered index and position (0/0 when nothing is remembered),
falling back to index 0 and clearing the stale entry when the remembered
index is out of range.  Unknown ids and empty playlists leave the state as
saved. -/
def startEvent (s : AMState) (playlistId : String) : AMState :=
  let s1 := saveCurrentState s
  match alGet playlistId s1.eventPlaylists with
  | none => s1
  | some pl =>
    if pl.tracks.length = 0 then s1
    else
      let s2 := { s1 with currentMode := AudioMode.event, currentEventPlaylist := some pl }
      let saved := alGet playlistId s2.playlistStates
      let idx := (saved.map PlaylistState.trackIndex).getD 0
      let startTime := (saved.map PlaylistState.currentTime).getD 0
      if pl.tracks.length ≤ idx then
        let s3 := { s2 with currentEventIndex := 0,
                            playlistStates := alDel playlistId s2.playlistStates }
        match pl.tracks.get? 0 with
        | some t => loadAndPlayTrack s3 t startTime
        | none => s3
      else
        let s3 := { s2 with currentEventIndex := idx }
        match pl.tracks.get? idx with
        | some t => loadAndPlayTrack s3 t startTime
        | none => s3

/-- stopEvent: only meaningful in event mode; clears the active event
playlist, returns to ambient mode, and resumes ambient playback when
ambient tracks exist. -/
def stopEvent (s : AMState) : AMState :=
  match s.currentMode with
  | AudioMode.bgm => s
  | AudioMode.event =>
    let s1 := { s with currentEventPlaylist := none, currentEventIndex := 0,
                       currentMode := AudioMode.bgm }
    if s1.bgmTracks.length ≠ 0 then playBGM s1 else s1

/-- playNext: advances the index within the current mode's playlist modulo
its length and plays that track from position 0. -/
def playNext (s : AMState) : AMState :=
  match s.currentMode with
  | AudioMode.bgm =>
    if s.bgmTracks.length = 0 then s
    else
      let i := (s.currentBgmIndex + 1) % s.bgmTracks.length
      let s1 := { s with currentBgmIndex := i }
      match s1.bgmTracks.get? i with
      | some t => loadAndPlayTrack s1 t 0
      | none => s1
  | AudioMode.event =>
    match s.currentEventPlaylist with
    | none => s
    | some pl =>
      if pl.tracks.length = 0 then s
      else
        let i := (s.currentEventIndex + 1) % pl.tracks.length
        let s1 := { s with currentEventIndex := i }
        match pl.tracks.get? i with
        | some t => loadAndPlayTrack s1 t 0
        | none => s1

/-- skipNext delegates to playNext. -/
def skipNext (s : AMState) : AMState := playNext s

/-- skipPrevious: retreats the index within the current mode's playlist,
wrapping from 0 to length - 1, and plays that track from position 0. -/
def skipPrevious (s : AMState) : AMState :=
  match s.currentMode with
  | AudioMode.bgm =>
    if s.bgmTracks.length = 0 then s
    else
      let i := if s.currentBgmIndex = 0 then s.bgmTracks.length - 1 else s.currentBgmIndex - 1
      let s1 := { s with currentBgmIndex := i }
      match s1.bgmTracks.get? i with
      | some t => loadAndPlayTrack s1 t 0
      | none => s1
  | AudioMode.event =>
    match s.currentEventPlaylist with
    | none => s
    | some pl =>
      if pl.tracks.length = 0 then s
      else
        let i := if s.currentEventIndex = 0 then pl.tracks.length - 1 else s.currentEventIndex - 1
        let s1 := { s with currentEventIndex := i }
        match pl.tracks.get? i with
        | some t => loadAndPlayTrack s1 t 0
        | none => s1

/-! ## Config import validation: src/lib/configManager.ts

The parsed JSON value handed to validateConfig is modelled as an inductive
JSON tree.  A missing object field is JavaScript undefined and is
represented by Option.none from the field lookup; JSON null is the jnull
constructor (the two are distinguished, as the source's strict planFile
comparison requires). -/

/-- A parsed JSON value. -/
inductive JVal where
  | jnull
  | jbool (b : Bool)
  | jnum (q : ℚ)
  | jstr (s : String)
  | jarr (elems : List JVal)
  | jobj (fields : List (String × JVal))

/-- Field access on a parsed value: none models JavaScript undefined (also
the result of property access on non-objects for the shapes below). -/
def getField : JVal → String → Option JVal
  | JVal.jobj fields, k => alGet k fields
  | _, _ => none

/-- Is the value truthy in JavaScript? -/
def jTruthy : JVal → Bool
  | JVal.jnull => false
  | JVal.jbool b => b
  | JVal.jnum q => q ≠ 0
  | JVal.jstr s => s ≠ ""
  | JVal.jarr _ => true
  | JVal.jobj _ => true

/-- Does typeof yield the string object for this value?  JavaScript null and
arrays both do. -/
def jTypeofObject : JVal → Bool
  | JVal.jnull => true
  | JVal.jarr _ => true
  | JVal.jobj _ => true
  | _ => false

/-- Is the (possibly missing) field a string? -/
def jFieldIsStr (v : JVal) (k : String) : Bool :=
  match getField v k with
  | some (JVal.jstr _) => true
  | _ => false

/-- validateFileReference (src/lib/configManager.ts, lines 127-141): a
truthy object with string path, name and type, the type one of markdown,
image, audio. -/
def validateFileReference (ref : JVal) : Bool :=
  if !(jTruthy ref) || !(jTypeofObject ref) then false
  else if !(jFieldIsStr ref "path") || !(jFieldIsStr ref "name") || !(jFieldIsStr ref "type") then
    false
  else
    match getField ref "type" with
    | some (JVal.jstr t) => t == "markdown" || t == "image" || t == "audio"
    | _ => false

/-- validateFileReference applied to a possibly-undefined value: undefined
is falsy, so the source's first guard rejects it. -/
def validateFileReferenceOpt : Option JVal → Bool
  | none => false
  | some v => validateFileReference v

/-- validateEventPlaylist (src/lib/configManager.ts, lines 146-160): a
truthy object with string id and name and a tracks array whose every
element passes validateFileReference.  No audio-kind constraint is imposed
on the tracks beyond that. -/
def validateEventPlaylist (playlist : JVal) : Bool :=
  if !(jTruthy playlist) || !(jTypeofObject playlist) then false
  else if !(jFieldIsStr playlist "id") || !(jFieldIsStr playlist "name") then false
  else
    match getField playlist "tracks" with
    | some (JVal.jarr ts) => ts.all validateFileReference
    | _ => false

/-- validatePart (src/lib/configManager.ts, lines 92-122).  The planFile
field may be JSON null; any other value (including a missing field, which
is undefined and hence not strictly equal to null) must pass
validateFileReference. -/
def validatePart (part : JVal) : Bool :=
  if !(jTruthy part) || !(jTypeofObject part) then false
  else if !(jFieldIsStr part "id") || !(jFieldIsStr part "name") then false
  else if (match getField part "planFile" with
           | some JVal.jnull => false
           | o => !(validateFileReferenceOpt o)) then false
  else if (match getField part "images" with
           | some (JVal.jarr xs) => !(xs.all validateFileReference)
           | _ => true) then false
  else if (match getField part "supportDocs" with
           | some (JVal.jarr xs) => !(xs.all validateFileReference)
           | _ => true) then false
  else if (match getField part "bgmPlaylist" with
           | some (JVal.jarr xs) => !(xs.all validateFileReference)
           | _ => true) then false
  else if (match getField part "eventPlaylists" with
           | some (JVal.jarr xs) => !(xs.all validateEventPlaylist)
           | _ => true) then false
  else true

/-- validateConfig (src/lib/configManager.ts, lines 66-87): a truthy object
with a string folderName and a parts array whose every element passes
validatePart.  No other field is inspected. -/
def validateConfig (config : JVal) : Bool :=
  if !(jTruthy config) || !(jTypeofObject config) then false
  else if !(jFieldIsStr config "folderName") then false
  else
    match getField config "parts" with
    | some (JVal.jarr ps) => ps.all validatePart
    | _ => false

/-- The names listed in a config's playerCharacters array (used to state
the roster invariant about imported configs). -/
def jPlayerCharacterNames (config : JVal) : List String :=
  match getField config "playerCharacters" with
  | some (JVal.jarr xs) =>
    xs.filterMap (fun v => match v with
      | JVal.jstr s => some s
      | _ => none)
  | _ => []

/-- The names appearing in a config's pcStats array (used to state the
roster invariant about imported configs). -/
def jPcStatsNames (config : JVal) : List String :=
  match getField config "pcStats" with
  | some (JVal.jarr xs) =>
    xs.filterMap (fun v => match getField v "name" with
      | some (JVal.jstr s) => some s
      | _ => none)
  | _ => []

/-! ## Character stat extraction: src/lib/sessionScanner.ts (HP_PATTERNS,
DEF_PATTERNS and extractStat)

Each source regex is embedded as a leftmost-match scanner over the content.
The patterns use only literals, class repetitions followed by characters
outside the class, and optional atoms whose failure forces the overall
position to fail, so greedy matching without backtracking computes the same
leftmost match as the JavaScript engine. -/

/-- JavaScript regex class backslash-s (the whitespace forms occurring in
markdown character sheets). -/
def jsWS (c : Char) : Bool :=
  c == ' ' || c == '\t' || c == '\n' || c == '\r' || c == '\x0b' || c == '\x0c'

/-- JavaScript regex class backslash-w: ASCII letters, digits, underscore. -/
def isWordChar (c : Char) : Bool := c.isAlphanum || c == '_'

/-- Word-boundary test before a token that starts with a word character:
start of input, or a preceding non-word character. -/
def atBoundary : Option Char → Bool
  | none => true
  | some c => !(isWordChar c)

/-- Consume a case-insensitive literal (the literal given lowercased). -/
def eatLit : List Char → List Char → Option (List Char)
  | [], s => some s
  | _ :: _, [] => none
  | c :: cs, x :: xs => if x.toLower == c then eatLit cs xs else none

/-- Consume the maximal run of whitespace (regex backslash-s star). -/
def eatWS : List Char → List Char
  | [] => []
  | c :: cs => if jsWS c then eatWS cs else c :: cs

/-- Consume at least one whitespace character (regex backslash-s plus). -/
def eatWS1 : List Char → Option (List Char)
  | [] => none
  | c :: cs => if jsWS c then some (eatWS cs) else none

/-- Consume an optional colon or equals sign (regex class colon-equals,
optional). -/
def eatSep : List Char → List Char
  | [] => []
  | c :: cs => if c == ':' || c == '=' then cs else c :: cs

/-- Consume one given character. -/
def eatChar (c : Char) : List Char → Option (List Char)
  | [] => none
  | x :: xs => if x == c then some xs else none

/-- Consume a maximal nonempty digit run (regex backslash-d plus),
returning the digits and the rest. -/
def eatDigits (s : List Char) : Option (List Char × List Char) :=
  let ds := s.takeWhile Char.isDigit
  if ds.isEmpty then none else some (ds, s.drop ds.length)

/-- Numeric value of a digit run (parseInt on a captured digit group). -/
def digitsToNat (ds : List Char) : Nat :=
  ds.foldl (fun n c => n * 10 + (c.toNat - 48)) 0

/-- Consume the common tail of the stat patterns: whitespace, an optional
colon or equals separator, whitespace, then a captured digit group. -/
def eatSepDigits (s : List Char) : Option Nat := do
  let s1 := eatWS s
  let s2 := eatSep s1
  let s3 := eatWS s2
  let (ds, _) ← eatDigits s3
  pure (digitsToNat ds)

/-- A single-position attempt of a word-boundary token pattern such as
backslash-b HP sep digits (HP_PATTERNS entries 1, 5, 8 and their
DEF_PATTERNS analogues). -/
def tokenPatAt (token : List Char) (prev : Option Char) (s : List Char) : Option Nat := do
  guard (atBoundary prev)
  let s1 ← eatLit token s
  eatSepDigits s1

/-- A single-position attempt of a two-word pattern such as backslash-b Hit
whitespace Points sep digits. -/
def twoWordPatAt (w1 w2 : List Char) (prev : Option Char) (s : List Char) : Option Nat := do
  guard (atBoundary prev)
  let s1 ← eatLit w1 s
  let s2 ← eatWS1 s1
  let s3 ← eatLit w2 s2
  eatSepDigits s3

/-- A single-position attempt of a token with an optional literal suffix,
such as Max(imum)? whitespace HP sep digits or Def(ense)? sep digits; an
empty second word means the suffix attaches to a one-word pattern. -/
def optSuffixWordPatAt (stem suffix w2 : List Char) (prev : Option Char) (s : List Char) :
    Option Nat := do
  guard (atBoundary prev)
  let s1 ← eatLit stem s
  let s1b := (eatLit suffix s1).getD s1
  match w2 with
  | [] => eatSepDigits s1b
  | _ :: _ => do
    let s2 ← eatWS1 s1b
    let s3 ← eatLit w2 s2
    eatSepDigits s3

/-- A single-position attempt of the current-slash-max pattern backslash-b
HP sep digits slash captured digits (HP_PATTERNS entry 4). -/
def slashMaxPatAt (token : List Char) (prev : Option Char) (s : List Char) : Option Nat := do
  guard (atBoundary prev)
  let s1 ← eatLit token s
  let s2 := eatWS s1
  let s3 := eatSep s2
  let s4 := eatWS s3
  let (_, r1) ← eatDigits s4
  let r2 := eatWS r1
  let r3 ← eatChar '/' r2
  let r4 := eatWS r3
  let (ds, _) ← eatDigits r4
  pure (digitsToNat ds)

/-- A single-position attempt of the markdown table row pattern pipe token
pipe captured digits pipe (HP_PATTERNS entry 6). -/
def tableRowPatAt (token : List Char) (_ : Option Char) (s : List Char) : Option Nat := do
  let s1 ← eatChar '|' s
  let s2 := eatWS s1
  let s3 ← eatLit token s2
  let s4 := eatWS s3
  let s5 ← eatChar '|' s4
  let s6 := eatWS s5
  let (ds, r1) ← eatDigits s6
  let r2 := eatWS r1
  let _ ← eatChar '|' r2
  pure (digitsToNat ds)

/-- A single-position attempt of the markdown bold pattern star star token
star star sep digits (HP_PATTERNS entry 7). -/
def boldPatAt (token : List Char) (_ : Option Char) (s : List Char) : Option Nat := do
  let s1 ← eatChar '*' s
  let s2 ← eatChar '*' s1
  let s3 ← eatLit token s2
  let s4 ← eatChar '*' s3
  let s5 ← eatChar '*' s4
  eatSepDigits s5

/-- Leftmost-match scan: try the single-position attempt at every position
of the content from left to right, tracking the previous character for the
word-boundary test. -/
def scanFrom (att : Option Char → List Char → Option Nat) :
    Option Char → List Char → Option Nat
  | prev, [] => att prev []
  | prev, c :: cs =>
    match att prev (c :: cs) with
    | some v => some v
    | none => scanFrom att (some c) cs

/-- Run a pattern against a whole content string (String.match, returning
the captured digit group's value of the leftmost match). -/
def runPat (att : Option Char → List Char → Option Nat) (content : String) : Option Nat :=
  scanFrom att none content.data

/-- HP_PATTERNS (src/lib/sessionScanner.ts, lines 178-195), in source
order. -/
def HP_PATTERNS : List (String → Option Nat) :=
  [ runPat (tokenPatAt ['h', 'p'])
  , runPat (twoWordPatAt "hit".data "points".data)
  , runPat (optSuffixWordPatAt "max".data "imum".data "hp".data)
  , runPat (slashMaxPatAt ['h', 'p'])
  , runPat (tokenPatAt ['s', 'p'])
  , runPat (tableRowPatAt ['h', 'p'])
  , runPat (boldPatAt ['h', 'p'])
  , runPat (tokenPatAt "health".data) ]

/-- DEF_PATTERNS (src/lib/sessionScanner.ts, lines 201-218), in source
order. -/
def DEF_PATTERNS : List (String → Option Nat) :=
  [ runPat (tokenPatAt ['a', 'c'])
  , runPat (twoWordPatAt "armor".data "class".data)
  , runPat (optSuffixWordPatAt "def".data "ense".data [])
  , runPat (tokenPatAt "eac".data)
  , runPat (tokenPatAt "kac".data)
  , runPat (tableRowPatAt ['a', 'c'])
  , runPat (boldPatAt ['a', 'c'])
  , runPat (tokenPatAt "defence".data) ]

/-- extractStat (src/lib/sessionScanner.ts, lines 223-234): try the
patterns in order; the first whose leftmost match captures a positive
integer wins; otherwise null. -/
def extractStat (content : String) : List (String → Option Nat) → Option Nat
  | [] => none
  | p :: rest =>
    match p content with
    | some v => if 0 < v then some v else extractStat content rest
    | none => extractStat content rest

/-! ## Session folder scanner: src/lib/sessionScanner.ts

The directory tree handed to the scanner is modelled as a tree of named
files (with text content) and named directories; entry lists keep the
enumeration order of the underlying directory iterator.  Generated part and
playlist ids (Date.now plus random suffix) are nondeterministic and carry
no claim-relevant information, so they are left out of the embedded part
record.  The SUPPORTED_* extension constants are imported by the scanner
from the file-system module; the captured module revision predates their
export, so the sets are taken from its getFileType helper, which classifies
by the same fixed extension sets.  Filename sorting (localeCompare) is
modelled as code-point order; no claim depends on the collation. -/

/-- A file-system entry: a file with text content, or a directory. -/
inductive FSEntry where
  | file (name : String) (content : String)
  | dir (name : String) (entries : List FSEntry)

/-- Expected folder names for auto-detection (SESSION_FOLDERS). -/
def SESSION_FOLDERS : List String :=
  ["characters", "images", "maps", "music", "plan", "threats"]

/-- Markdown extensions (getFileType, src/lib/fileSystem.ts). -/
def MD_EXTS : List String := ["md", "markdown"]

/-- Image extensions (getFileType, src/lib/fileSystem.ts). -/
def IMG_EXTS : List String := ["jpg", "jpeg", "png", "gif", "webp", "svg"]

/-- Audio extensions (getFileType, src/lib/fileSystem.ts). -/
def AUD_EXTS : List String := ["mp3", "wav", "ogg", "flac", "m4a"]

/-- Find the entries of the directory with exactly the given name. -/
def childDir (entries : List FSEntry) (name : String) : Option (List FSEntry) :=
  match entries with
  | [] => none
  | FSEntry.file _ _ :: rest => childDir rest name
  | FSEntry.dir n es :: rest => if n == name then some es else childDir rest name

/-- getSubdirectory: walk a path of directory names, null when a segment is
missing. -/
def getSubdirectory (entries : List FSEntry) : List String → Option (List FSEntry)
  | [] => some entries
  | seg :: rest =>
    match childDir entries seg with
    | some es => getSubdirectory es rest
    | none => none

/-- The extension of a file name: everything after the last dot of the
lowercased name (the whole lowercased name when there is no dot), modelling
name.toLowerCase().split(dot).pop(). -/
def extOf (name : String) : String :=
  String.mk ((lowerStr name.data).foldl (fun acc c => if c == '.' then [] else acc ++ [c]) [])

/-- Suffix test on character lists (String.endsWith). -/
def isSuffixOfL (suf t : List Char) : Bool := startsWithL t.reverse suf.reverse

/-- Split a character list on a separator character, keeping empty
segments (JavaScript String.split with a single-character separator). -/
def splitOnChar (sep : Char) : List Char → List (List Char)
  | [] => [[]]
  | c :: cs =>
    match splitOnChar sep cs with
    | [] => [[]]
    | seg :: rest => if c == sep then [] :: seg :: rest else (c :: seg) :: rest

/-- Code-point comparison on strings, standing in for localeCompare. -/
def strLeB : List Char → List Char → Bool
  | [], _ => true
  | _ :: _, [] => false
  | a :: as, b :: bs =>
    if a.toNat < b.toNat then true
    else if b.toNat < a.toNat then false
    else strLeB as bs

/-- Insert into a sorted list after every element the order considers less
than or equal, preserving the relative order of equal elements. -/
def insertLe {α : Type} (le : α → α → Bool) (x : α) : List α → List α
  | [] => [x]
  | y :: ys => if le y x then y :: insertLe le x ys else x :: y :: ys

/-- Stable sort by the given boolean order (Array.prototype.sort is
required to be stable). -/
def sortByLe {α : Type} (le : α → α → Bool) (l : List α) : List α :=
  l.foldl (fun acc x => insertLe le x acc) []

/-- A file entry picked up by getFilesFromDirectory. -/
structure ScanFile where
  name : String
  path : String
deriving DecidableEq

/-- getFilesFromDirectory: the files of one directory whose extension is in
the given set, paths joined under the base path, sorted by name. -/
def getFilesFromDirectory (entries : List FSEntry) (basePath : String)
    (exts : List String) : List ScanFile :=
  let files := entries.filterMap (fun e =>
    match e with
    | FSEntry.file n _ => if exts.contains (extOf n) then some ⟨n, basePath ++ "/" ++ n⟩ else none
    | FSEntry.dir _ _ => none)
  sortByLe (fun a b => strLeB a.name.data b.name.data) files

/-- A file reference as produced by the scanner. -/
structure FileRef where
  path : String
  name : String
  type : String
deriving DecidableEq

/-- createFileReference. -/
def createFileReference (f : ScanFile) (type : String) : FileRef :=
  ⟨f.path, f.name, type⟩

/-- createAudioFile. -/
def createAudioFile (f : ScanFile) : FileRef :=
  ⟨f.path, f.name, "audio"⟩

/-- The digit group of the act pattern caret-act-digits-dollar,
case-insensitive, when the name matches. -/
def actDigits (name : String) : Option (List Char) :=
  match lowerStr name.data with
  | 'a' :: 'c' :: 't' :: rest =>
    if rest.isEmpty then none
    else if rest.all Char.isDigit then some rest else none
  | _ => none

/-- ACT_PATTERN.test. -/
def isActDir (name : String) : Bool := (actDigits name).isSome

/-- The numeric act value used by the detectActs sort comparator
(parseInt of the captured digits, 0 when the pattern does not match). -/
def actNumOf (name : String) : Nat :=
  match actDigits name with
  | some ds => digitsToNat ds
  | none => 0

/-- The lowercased act-directory names encountered across the recognized
category directories, in enumeration order, duplicates included. -/
def detectActsRaw (root : List FSEntry) : List String :=
  root.foldl (fun acc e =>
    match e with
    | FSEntry.dir n subs =>
      if SESSION_FOLDERS.contains (lowerS n) then
        acc ++ subs.filterMap (fun sub =>
          match sub with
          | FSEntry.dir sn _ => if isActDir sn then some (lowerS sn) else none
          | FSEntry.file _ _ => none)
      else acc
    | FSEntry.file _ _ => acc) []

/-- Set semantics: keep the first occurrence of each element, in insertion
order. -/
def dedupFirst {α : Type} [BEq α] (seen : List α) : List α → List α
  | [] => []
  | x :: xs => if seen.contains x then dedupFirst seen xs else x :: dedupFirst (x :: seen) xs

/-- detectActs (src/lib/sessionScanner.ts, lines 42-65): the set of
lowercased act-directory names found under any recognized category
directory, sorted by numeric act value (stable). -/
def detectActs (root : List FSEntry) : List String :=
  sortByLe (fun a b => actNumOf a ≤ actNumOf b) (dedupFirst [] (detectActsRaw root))

/-- Strip a trailing markdown extension from a file name, modelling the
replace of the anchored extension regex. -/
def stripMdExt (name : String) : String :=
  if isSuffixOfL ".markdown".data (lowerStr name.data) then
    String.mk (name.data.take (name.data.length - 9))
  else if isSuffixOfL ".md".data (lowerStr name.data) then
    String.mk (name.data.take (name.data.length - 3))
  else name

/-- Capitalization of one word: first character uppercased, rest
lowercased. -/
def capWordL : List Char → List Char
  | [] => []
  | c :: cs => c.toUpper :: cs.map Char.toLower

/-- Join words with single spaces (Array.prototype.join with a space). -/
def joinSpaceL : List (List Char) → List Char
  | [] => []
  | [w] => w
  | w :: ws => w ++ ' ' :: joinSpaceL ws

/-- fileNameToDisplayName (src/lib/sessionScanner.ts, lines 302-317):
extension stripped, underscores to spaces, each word capitalized except
non-initial words of length at most 2, which are lowercased. -/
def fileNameToDisplayName (fileName : String) : String :=
  let nameNoExt := stripMdExt fileName
  let spaced := nameNoExt.data.map (fun c => if c == '_' then ' ' else c)
  let words := splitOnChar ' ' spaced
  String.mk (joinSpaceL (words.enum.map (fun iw =>
    if iw.1 = 0 || 2 < iw.2.length then capWordL iw.2 else iw.2.map Char.toLower)))

/-- getActDisplayName: the display name derived from the first plan file of
the act, none when the plan folder or plan files are missing. -/
def getActDisplayName (root : List FSEntry) (actName : String) : Option String :=
  match getSubdirectory root ["plan", actName] with
  | none => none
  | some planFolder =>
    match getFilesFromDirectory planFolder ("plan/" ++ actName) MD_EXTS with
    | [] => none
    | f :: _ => some (fileNameToDisplayName f.name)

/-- An event playlist produced by the scanner (generated id abstracted). -/
structure SPlaylist where
  name : String
  tracks : List FileRef
deriving DecidableEq

/-- A session part produced by the scanner (generated id abstracted). -/
structure SPart where
  name : String
  planFile : Option FileRef
  images : List FileRef
  supportDocs : List FileRef
  bgmPlaylist : List FileRef
  eventPlaylists : List SPlaylist
deriving DecidableEq

/-- scanActFolder (src/lib/sessionScanner.ts, lines 384-496). -/
def scanActFolder (root : List FSEntry) (actName : String) (partName : String) : SPart :=
  let planPair :=
    match getSubdirectory root ["plan", actName] with
    | none => (none, [])
    | some planFolder =>
      match getFilesFromDirectory planFolder ("plan/" ++ actName) MD_EXTS with
      | [] => (none, [])
      | f :: rest =>
        (some (createFileReference f "markdown"),
         rest.map (fun g => createFileReference g "markdown"))
  let images :=
    match getSubdirectory root ["images", actName] with
    | none => []
    | some folder =>
      (getFilesFromDirectory folder ("images/" ++ actName) IMG_EXTS).map
        (fun f => createFileReference f "image")
  let mdDocsOf := fun (category : String) =>
    match getSubdirectory root [category, actName] with
    | none => []
    | some folder =>
      (getFilesFromDirectory folder (category ++ "/" ++ actName) MD_EXTS).map
        (fun f => createFileReference f "markdown")
  let musicPair :=
    match getSubdirectory root ["music", actName] with
    | none => ([], [])
    | some musicFolder =>
      let bgm := (getFilesFromDirectory musicFolder ("music/" ++ actName) AUD_EXTS).map
        createAudioFile
      let playlists := musicFolder.filterMap (fun sub =>
        match sub with
        | FSEntry.dir subName subEntries =>
          let tracks := getFilesFromDirectory subEntries
            ("music/" ++ actName ++ "/" ++ subName) AUD_EXTS
          if tracks.isEmpty then none
          else some (SPlaylist.mk subName (tracks.map createAudioFile))
        | FSEntry.file _ _ => none)
      (bgm, playlists)
  { name := partName
    planFile := planPair.1
    images := images
    supportDocs := planPair.2 ++ mdDocsOf "characters" ++ mdDocsOf "threats" ++ mdDocsOf "maps"
    bgmPlaylist := musicPair.1
    eventPlaylists := musicPair.2 }

/-- scanForSinglePart (src/lib/sessionScanner.ts, lines 501-547): the
fallback part assembled from category folders without an act level, none
when every category is empty. -/
def scanForSinglePart (root : List FSEntry) (partName : String) : Option SPart :=
  let planPair :=
    match getSubdirectory root ["plan"] with
    | none => (none, [])
    | some folder =>
      match getFilesFromDirectory folder "plan" MD_EXTS with
      | [] => (none, [])
      | f :: rest =>
        (some (createFileReference f "markdown"),
         rest.map (fun g => createFileReference g "markdown"))
  let images :=
    match getSubdirectory root ["images"] with
    | none => []
    | some folder =>
      (getFilesFromDirectory folder "images" IMG_EXTS).map (fun f => createFileReference f "image")
  let bgm :=
    match getSubdirectory root ["music"] with
    | none => []
    | some folder =>
      (getFilesFromDirectory folder "music" AUD_EXTS).map createAudioFile
  let mdDocsOf := fun (category : String) =>
    match getSubdirectory root [category] with
    | none => []
    | some folder =>
      (getFilesFromDirectory folder category MD_EXTS).map (fun f => createFileReference f "markdown")
  let supportDocs := mdDocsOf "characters" ++ mdDocsOf "maps" ++ mdDocsOf "threats"
  let hasContent := planPair.1.isSome || !images.isEmpty || !bgm.isEmpty || !supportDocs.isEmpty
  if hasContent then
    some { name := partName
           planFile := planPair.1
           images := images
           supportDocs := planPair.2 ++ supportDocs
           bgmPlaylist := bgm
           eventPlaylists := [] }
  else none

/-- Player character names taken from markdown file names of one folder,
in enumeration order (extractPCNames before its sort). -/
def extractPCNamesRaw (entries : List FSEntry) : List String :=
  entries.filterMap (fun e =>
    match e with
    | FSEntry.file n _ =>
      if MD_EXTS.contains (extOf n) then
        let pcName := stripMdExt n
        if pcName == "" then none else some pcName
      else none
    | FSEntry.dir _ _ => none)

/-- extractPCNames (src/lib/sessionScanner.ts, lines 154-172). -/
def extractPCNames (entries : List FSEntry) : List String :=
  sortByLe (fun a b => strLeB a.data b.data) (extractPCNamesRaw entries)

/-- Parsed stats of one player character. -/
structure PCStats where
  name : String
  maxHP : Option Nat
  defense : Option Nat
deriving DecidableEq

/-- Stats rows taken from markdown files of one folder, in enumeration
order (extractPCStats before its sort). -/
def extractPCStatsRaw (entries : List FSEntry) : List PCStats :=
  entries.filterMap (fun e =>
    match e with
    | FSEntry.file n content =>
      if MD_EXTS.contains (extOf n) then
        let pcName := stripMdExt n
        if pcName == "" then none
        else some ⟨pcName, extractStat content HP_PATTERNS, extractStat content DEF_PATTERNS⟩
      else none
    | FSEntry.dir _ _ => none)

/-- extractPCStats (src/lib/sessionScanner.ts, lines 251-281). -/
def extractPCStats (entries : List FSEntry) : List PCStats :=
  sortByLe (fun a b => strLeB a.name.data b.name.data) (extractPCStatsRaw entries)

/-- The characters/PCs folder (capitalized first, then lowercase). -/
def pcsFolder (root : List FSEntry) : Option (List FSEntry) :=
  match getSubdirectory root ["characters", "PCs"] with
  | some es => some es
  | none => getSubdirectory root ["characters", "pcs"]

/-- detectPlayerCharacters (src/lib/sessionScanner.ts, lines 140-149). -/
def detectPlayerCharacters (root : List FSEntry) : List String :=
  match pcsFolder root with
  | none => []
  | some es => extractPCNames es

/-- detectPlayerCharacterStats (src/lib/sessionScanner.ts, lines
286-295). -/
def detectPlayerCharacterStats (root : List FSEntry) : List PCStats :=
  match pcsFolder root with
  | none => []
  | some es => extractPCStats es

/-- A session configuration as produced by the scanner. -/
structure SConfig where
  folderName : String
  parts : List SPart
  playerCharacters : List String
  pcStats : List PCStats
deriving DecidableEq

/-- scanSessionFolder (src/lib/sessionScanner.ts, lines 345-379). -/
def scanSessionFolder (folderName : String) (root : List FSEntry) : SConfig :=
  let acts := detectActs root
  let playerCharacters := detectPlayerCharacters root
  let pcStats := detectPlayerCharacterStats root
  match acts with
  | [] =>
    { folderName := folderName
      parts := (scanForSinglePart root "Part 1").toList
      playerCharacters := playerCharacters
      pcStats := pcStats }
  | _ :: _ =>
    let parts := acts.map (fun actName =>
      let actNumber :=
        match actDigits actName with
        | some ds => String.mk ds
        | none => "1"
      let displayName := (getActDisplayName root actName).getD ("Act " ++ actNumber)
      scanActFolder root actName displayName)
    { folderName := folderName
      parts := parts
      playerCharacters := playerCharacters
      pcStats := pcStats }

/-! ## Document search wrapper: SearchManager.search

The lunr index is an external library; its search call is modelled as an
abstract lookup that either returns scored references or throws (Except
models the thrown error the source catches).  Snippet construction
(extractContext) contributes only the context text of each result and no
claim concerns it, so it is passed in as an abstract snippet function. -/

/-- A search result row. -/
structure SearchResult where
  ref : String
  name : String
  score : ℚ
  context : String

/-- The SearchManager state: the optional built index and the document
store keyed by path (name and content per document). -/
structure SearchState where
  index : Option (String → Except String (List (String × ℚ)))
  documents : List (String × String × String)

/-- Strip leading and trailing whitespace (String.trim of the query). -/
def strTrim (s : String) : String :=
  String.mk (((s.data.dropWhile jsWS).reverse.dropWhile jsWS).reverse)

/-- SearchManager.search (lines 48-75): empty for a missing index or blank
query, otherwise the first maxResults scored references resolved against
the document store, and empty when the index lookup throws. -/
def searchDocs (snippet : String → String → String) (st : SearchState)
    (query : String) (maxResults : Nat) : List SearchResult :=
  match st.index with
  | none => []
  | some idx =>
    if strTrim query = "" then []
    else
      match idx query with
      | Except.error _ => []
      | Except.ok results =>
        (results.take maxResults).filterMap (fun r =>
          match alGet r.1 st.documents with
          | none => none
          | some (docName, content) => some ⟨r.1, docName, r.2, snippet content query⟩)

/-! ## Concrete inputs used by the theorems below -/

/-- The Combat event playlist of the resume scenario. -/
def combatPlaylist : EventPlaylist :=
  ⟨"combat", "Combat", [⟨"music/act1/Combat/c1.mp3", "c1.mp3"⟩, ⟨"music/act1/Combat/c2.mp3", "c2.mp3"⟩]⟩

/-- An ambient track for the resume scenario. -/
def ambientTrack : AudioFile := ⟨"music/act1/a.mp3", "a.mp3"⟩

/-- An engine state that is playing the Combat event playlist at track 1,
position 12 seconds, with one ambient track loaded. -/
def playingCombatState : AMState :=
  { currentMode := AudioMode.event
    bgmTracks := [ambientTrack]
    currentBgmIndex := 0
    eventPlaylists := [("combat", combatPlaylist)]
    currentEventPlaylist := some combatPlaylist
    currentEventIndex := 1
    playlistStates := []
    bgmState := ⟨0, 0⟩
    audioTrackPath := some "music/act1/Combat/c2.mp3"
    audioCurrentTime := 12
    audioPaused := false }

/-- An engine state in ambient mode at track index 1 of a two-track
ambient playlist (used against the loadBGM reset claim). -/
def ambientAtOneState : AMState :=
  { currentMode := AudioMode.bgm
    bgmTracks := [ambientTrack, ⟨"music/act1/b.mp3", "b.mp3"⟩]
    currentBgmIndex := 1
    eventPlaylists := []
    currentEventPlaylist := none
    currentEventIndex := 0
    playlistStates := []
    bgmState := ⟨1, 30⟩
    audioTrackPath := some "music/act1/b.mp3"
    audioCurrentTime := 30
    audioPaused := false }

/-- A three-track ambient state at the last index (used for the wraparound
witness). -/
def ambientThreeState : AMState :=
  { currentMode := AudioMode.bgm
    bgmTracks := [⟨"m/a.mp3", "a.mp3"⟩, ⟨"m/b.mp3", "b.mp3"⟩, ⟨"m/c.mp3", "c.mp3"⟩]
    currentBgmIndex := 2
    eventPlaylists := []
    currentEventPlaylist := none
    currentEventIndex := 0
    playlistStates := []
    bgmState := ⟨0, 0⟩
    audioTrackPath := some "m/c.mp3"
    audioCurrentTime := 0
    audioPaused := false }

/-- A track file reference of kind markdown placed inside an event
playlist's tracks (the shape the validator wrongly accepts). -/
def mdTrack : JVal :=
  JVal.jobj [("path", JVal.jstr "plan/act1/notes.md"), ("name", JVal.jstr "notes.md"),
             ("type", JVal.jstr "markdown")]

/-- An event playlist whose only track is the markdown reference. -/
def mdTrackPlaylist : JVal :=
  JVal.jobj [("id", JVal.jstr "e1"), ("name", JVal.jstr "Combat"),
             ("tracks", JVal.jarr [mdTrack])]

/-- A structurally complete part carrying the markdown-track playlist. -/
def mdTrackPart : JVal :=
  JVal.jobj [("id", JVal.jstr "p1"), ("name", JVal.jstr "Part 1"),
             ("planFile", JVal.jnull), ("images", JVal.jarr []),
             ("supportDocs", JVal.jarr []), ("bgmPlaylist", JVal.jarr []),
             ("eventPlaylists", JVal.jarr [mdTrackPlaylist])]

/-- A config whose event playlist contains a markdown track. -/
def mdTrackConfig : JVal :=
  JVal.jobj [("folderName", JVal.jstr "session"), ("parts", JVal.jarr [mdTrackPart])]

/-- A config whose pcStats names one character absent from the (empty)
player character roster. -/
def strayStatsConfig : JVal :=
  JVal.jobj [("folderName", JVal.jstr "session"), ("parts", JVal.jarr []),
             ("playerCharacters", JVal.jarr []),
             ("pcStats", JVal.jarr [JVal.jobj [("name", JVal.jstr "Bob"),
               ("maxHP", JVal.jnull), ("defense", JVal.jnull)]])]

/-- The union-of-acts fixture: plan/act1, plan/act3 and images/act2 only. -/
def unionActsTree : List FSEntry :=
  [FSEntry.dir "plan" [FSEntry.dir "act1" [], FSEntry.dir "act3" []],
   FSEntry.dir "images" [FSEntry.dir "act2" []]]

/-- A tree whose two act directories, act1 and act01, denote the same act
number under two different names. -/
def leadingZeroTree : List FSEntry :=
  [FSEntry.dir "plan" [FSEntry.dir "act1" []],
   FSEntry.dir "images" [FSEntry.dir "act01" []]]

/-- A tree with one player character sheet in characters/PCs. -/
def pcsTree : List FSEntry :=
  [FSEntry.dir "characters" [FSEntry.dir "PCs"
    [FSEntry.file "Bob.md" "HP: 30\nAC 17"]]]

/-- A character sheet mentioning both an HP and a Hit Points stat line. -/
def hpBothContent : String := "HP: 30\nHit Points: 45"

/-- A search state over one document, with an index lookup returning that
document for any query. -/
def oneDocSearchState : SearchState :=
  { index := some (fun _ => Except.ok [("plan/act1/intro.md", 2)])
    documents := [("plan/act1/intro.md", "intro.md", "The ancient ruins")] }

/-! ## Lemmas about the fuzzy matcher -/

/-- A prefix occurrence is in particular a substring occurrence. -/
theorem includesL_of_startsWithL (t q : List Char) (h : startsWithL t q = true) :
    includesL t q = true := by
  cases t with
  | nil =>
    cases q with
    | nil => rfl
    | cons c cs => simp [startsWithL] at h
  | cons c cs => simp [includesL, h]

/-- The total match count of the scanning loop grows by at most the length
of the scanned text. -/
theorem fuzzyLoop_total_le :
    ∀ (t q : List Char) (c m tot : Nat), (fuzzyLoop t q c m tot).2.2 ≤ tot + t.length := by
  intro t
  induction t with
  | nil =>
    intro q c m tot
    cases q <;> simp [fuzzyLoop]
  | cons x xs ih =>
    intro q c m tot
    cases q with
    | nil => simp [fuzzyLoop]
    | cons y ys =>
      by_cases hxy : (x == y) = true
      · have := ih ys (c + 1) (max m (c + 1)) (tot + 1)
        simp only [fuzzyLoop, hxy, if_true, List.length_cons]
        exact le_trans this (by omega)
      · have := ih (y :: ys) 0 m tot
        simp only [fuzzyLoop, hxy, if_false, List.length_cons]
        exact le_trans this (by omega)

/-- The longest consecutive run reported by the scanning loop is bounded by
the prior maximum and the current run extended by the remaining query
length. -/
theorem fuzzyLoop_maxC_le :
    ∀ (t q : List Char) (c m tot : Nat), (fuzzyLoop t q c m tot).2.1 ≤ max m (c + q.length) := by
  intro t
  induction t with
  | nil =>
    intro q c m tot
    cases q <;> simp [fuzzyLoop]
  | cons x xs ih =>
    intro q c m tot
    cases q with
    | nil => simp [fuzzyLoop]
    | cons y ys =>
      by_cases hxy : (x == y) = true
      · have := ih ys (c + 1) (max m (c + 1)) (tot + 1)
        simp only [fuzzyLoop, hxy, if_true]
        refine le_trans this ?_
        simp only [List.length_cons]
        omega
      · have := ih (y :: ys) 0 m tot
        simp only [fuzzyLoop, hxy, if_false]
        refine le_trans this ?_
        omega

/-- Case analysis of fuzzyScore for a nonempty query: the score is 100 with
the lowercased strings equal, or at most 80 with them different. -/
theorem fuzzyScore_cases (text query : String) (hq : query.data ≠ []) :
    (fuzzyScore text query = 100 ∧ lowerStr text.data = lowerStr query.data) ∨
    (fuzzyScore text query ≤ 80 ∧ lowerStr text.data ≠ lowerStr query.data) := by
  unfold fuzzyScore
  rw [if_neg hq]
  by_cases htext : text.data = []
  · rw [if_pos htext]
    right
    constructor
    · norm_num
    · intro hcontra
      apply hq
      have : lowerStr query.data = [] := by rw [← hcontra, htext]; rfl
      simpa [lowerStr] using this
  · rw [if_neg htext]
    by_cases heq : lowerStr text.data = lowerStr query.data
    · rw [if_pos heq]
      exact Or.inl ⟨rfl, heq⟩
    · rw [if_neg heq]
      right
      refine ⟨?_, heq⟩
      by_cases hinc : includesL (lowerStr text.data) (lowerStr query.data) = true
      · rw [if_pos hinc]
      · rw [if_neg hinc]
        by_cases hpre : startsWithL (lowerStr text.data) (lowerStr query.data) = true
        · exact absurd (includesL_of_startsWithL _ _ hpre) hinc
        · rw [if_neg hpre]
          rcases hloop : fuzzyLoop (lowerStr text.data) (lowerStr query.data) 0 0 0 with
            ⟨rest, maxC, total⟩
          dsimp only
          by_cases hrest : rest = []
          · rw [if_pos hrest]
            have htl : 0 < (lowerStr text.data).length := by
              rw [lowerStr, List.length_map]
              exact List.length_pos.mpr htext
            have hql : 0 < (lowerStr query.data).length := by
              rw [lowerStr, List.length_map]
              exact List.length_pos.mpr hq
            have h1 : total ≤ (lowerStr text.data).length := by
              have := fuzzyLoop_total_le (lowerStr text.data) (lowerStr query.data) 0 0 0
              rw [hloop] at this
              simpa using this
            have h2 : maxC ≤ (lowerStr query.data).length := by
              have := fuzzyLoop_maxC_le (lowerStr text.data) (lowerStr query.data) 0 0 0
              rw [hloop] at this
              simpa using this
            have hc1 : ((total : ℚ) / ((lowerStr text.data).length : ℚ)) ≤ 1 := by
              rw [div_le_one (by exact_mod_cast htl)]
              exact_mod_cast h1
            have hc2 : ((maxC : ℚ) / ((lowerStr query.data).length : ℚ)) ≤ 1 := by
              rw [div_le_one (by exact_mod_cast hql)]
              exact_mod_cast h2
            nlinarith [hc1, hc2]
          · rw [if_neg hrest]
            norm_num

/-- C2 (code evaluation at the failing input): the substring test of
fuzzyScore precedes the startsWith test, so the proper prefix query ab and
the non-prefix substring query bc score the same 80 against the text abc,
and the 90-scoring prefix branch is unreachable. -/
theorem fuzzyScore_prefix_not_above_contains :
    fuzzyScore "abc" "ab" = 80 ∧ fuzzyScore "abc" "bc" = 80 := by
  exact ⟨by decide, by decide⟩

/-- C10: for a nonempty query the fuzzy score is at most 100 and equals 100
exactly when text and query agree ignoring case, and the empty query scores
the constant 1 against every text. -/
theorem fuzzyScore_max_and_empty (text query : String) :
    (query ≠ "" →
      fuzzyScore text query ≤ 100 ∧
      (fuzzyScore text query = 100 ↔ lowerStr text.data = lowerStr query.data)) ∧
    fuzzyScore text "" = 1 := by
  constructor
  · intro hq
    have hqd : query.data ≠ [] := by
      intro h
      apply hq
      cases query with
      | mk l =>
        cases h
        rfl
    rcases fuzzyScore_cases text query hqd with ⟨hs, heq⟩ | ⟨hs, hne⟩
    · exact ⟨le_of_eq hs, ⟨fun _ => heq, fun _ => hs⟩⟩
    · refine ⟨le_trans hs (by norm_num), ?_⟩
      constructor
      · intro h100
        rw [h100] at hs
        norm_num at hs
      · intro h
        exact absurd h hne
  · rfl

/-- C10 witness: instantiated at text abc and query ab. -/
theorem fuzzyScore_max_and_empty_witness :
    ("ab" : String) ≠ "" ∧
    (fuzzyScore "abc" "ab" ≤ 100 ∧
      (fuzzyScore "abc" "ab" = 100 ↔ lowerStr "abc".data = lowerStr "ab".data)) :=
  ⟨by decide, (fuzzyScore_max_and_empty "abc" "ab").1 (by decide)⟩

/-! ## Lemmas and theorems about the audio engine -/

/-- C1: startEvent on a loaded playlist with remembered resume state,
called from ambient mode, switches to event mode and resumes at the
remembered track index and position of that playlist id (not at track 0),
leaving the per-playlist resume memory untouched. -/
theorem startEvent_resumes (s : AMState) (pid : String) (pl : EventPlaylist)
    (i : Nat) (p : ℚ)
    (hmode : s.currentMode = AudioMode.bgm)
    (hpl : alGet pid s.eventPlaylists = some pl)
    (hmem : alGet pid s.playlistStates = some ⟨i, p⟩)
    (hi : i < pl.tracks.length) :
    (startEvent s pid).currentMode = AudioMode.event ∧
    (startEvent s pid).currentEventPlaylist = some pl ∧
    (startEvent s pid).currentEventIndex = i ∧
    (startEvent s pid).audioCurrentTime = p ∧
    (startEvent s pid).playlistStates = s.playlistStates := by
  have hlen : ¬(pl.tracks.length = 0) := by omega
  have hle : ¬(pl.tracks.length ≤ i) := by omega
  obtain ⟨t, ht⟩ : ∃ t, pl.tracks.get? i = some t := by
    rw [List.get?_eq_get hi]
    exact ⟨_, rfl⟩
  simp only [startEvent, saveCurrentState, hmode, hpl, hmem, ht, Option.map_some',
    Option.getD_some, if_neg hlen, if_neg hle, loadAndPlayTrack]
  exact ⟨trivial, trivial, trivial, trivial, trivial⟩

/-- C1 witness: the spec scenario, concretely.  Playing the Combat playlist
at track 1, position 12, switching to ambient via playBGM, then calling
startEvent on Combat resumes at track 1, position 12. -/
theorem startEvent_resumes_witness :
    ((playBGM playingCombatState).currentMode = AudioMode.bgm ∧
     alGet "combat" (playBGM playingCombatState).eventPlaylists = some combatPlaylist ∧
     alGet "combat" (playBGM playingCombatState).playlistStates = some ⟨1, 12⟩ ∧
     1 < combatPlaylist.tracks.length) ∧
    ((startEvent (playBGM playingCombatState) "combat").currentEventIndex = 1 ∧
     (startEvent (playBGM playingCombatState) "combat").audioCurrentTime = 12) :=
  ⟨⟨by decide, by decide, by decide, by decide⟩,
   ⟨(startEvent_resumes (playBGM playingCombatState) "combat" combatPlaylist 1 12
       (by decide) (by decide) (by decide) (by decide)).2.2.1,
    (startEvent_resumes (playBGM playingCombatState) "combat" combatPlaylist 1 12
       (by decide) (by decide) (by decide) (by decide)).2.2.2.1⟩⟩

/-- C3 counterexample: loading an ambient track list whose path sequence is
identical to the currently loaded one still resets the per-mode track index
from 1 to 0. -/
theorem loadBGM_resets_despite_identical_paths :
    (loadBGM ambientAtOneState ambientAtOneState.bgmTracks).bgmTracks.map AudioFile.path =
      ambientAtOneState.bgmTracks.map AudioFile.path ∧
    ambientAtOneState.currentBgmIndex = 1 ∧
    (loadBGM ambientAtOneState ambientAtOneState.bgmTracks).currentBgmIndex = 0 :=
  ⟨rfl, rfl, rfl⟩

/-- C3 amended: loadBGM performs no comparison of the incoming and loaded
track path sequences; it unconditionally resets the in-memory per-mode
track index to 0 and stores the new tracks, leaving the saved resume state
(bgmState and the per-playlist map) untouched. -/
theorem loadBGM_always_resets (s : AMState) (tracks : List AudioFile) :
    (loadBGM s tracks).currentBgmIndex = 0 ∧
    (loadBGM s tracks).bgmTracks = tracks ∧
    (loadBGM s tracks).bgmState = s.bgmState ∧
    (loadBGM s tracks).playlistStates = s.playlistStates :=
  ⟨rfl, rfl, rfl, rfl⟩

/-- C8: within the active playlist of the current mode, skipNext advances
the track index to its successor modulo the playlist length and
skipPrevious retreats it to its predecessor modulo the playlist length,
wrapping at both ends. -/
theorem skip_wraps_modulo (s : AMState) :
    (∀ L : Nat, s.currentMode = AudioMode.bgm → s.bgmTracks.length = L → 1 ≤ L →
      s.currentBgmIndex < L →
      (skipNext s).currentBgmIndex = (s.currentBgmIndex + 1) % L ∧
      (skipPrevious s).currentBgmIndex = (s.currentBgmIndex + L - 1) % L) ∧
    (∀ (L : Nat) (pl : EventPlaylist), s.currentMode = AudioMode.event →
      s.currentEventPlaylist = some pl → pl.tracks.length = L → 1 ≤ L →
      s.currentEventIndex < L →
      (skipNext s).currentEventIndex = (s.currentEventIndex + 1) % L ∧
      (skipPrevious s).currentEventIndex = (s.currentEventIndex + L - 1) % L) := by
  constructor
  · intro L hmode hlen hL hidx
    have hlen0 : ¬(s.bgmTracks.length = 0) := by omega
    have hL0 : ¬(L = 0) := by omega
    constructor
    · simp only [skipNext, playNext, hmode, hlen, if_neg hL0]
      cases hg : s.bgmTracks.get? ((s.currentBgmIndex + 1) % L) <;>
        simp [loadAndPlayTrack]
    · simp only [skipPrevious, hmode, hlen, if_neg hL0]
      by_cases h0 : s.currentBgmIndex = 0
      · rw [if_pos h0, h0]
        have heq : (0 + L - 1) % L = L - 1 := by
          rw [Nat.zero_add, Nat.mod_eq_of_lt (by omega)]
        rw [heq]
        cases hg : s.bgmTracks.get? (L - 1) <;> simp [loadAndPlayTrack, hg]
      · rw [if_neg h0]
        have heq : (s.currentBgmIndex + L - 1) % L = s.currentBgmIndex - 1 := by
          rw [show s.currentBgmIndex + L - 1 = s.currentBgmIndex - 1 + L by omega,
            Nat.add_mod_right, Nat.mod_eq_of_lt (by omega)]
        rw [heq]
        cases hg : s.bgmTracks.get? (s.currentBgmIndex - 1) <;>
          simp [loadAndPlayTrack, hg]
  · intro L pl hmode hpl hlen hL hidx
    have hlen0 : ¬(pl.tracks.length = 0) := by omega
    have hL0 : ¬(L = 0) := by omega
    constructor
    · simp only [skipNext, playNext, hmode, hpl, hlen, if_neg hL0]
      cases hg : pl.tracks.get? ((s.currentEventIndex + 1) % L) <;>
        simp [loadAndPlayTrack]
    · simp only [skipPrevious, hmode, hpl, hlen, if_neg hL0]
      by_cases h0 : s.currentEventIndex = 0
      · rw [if_pos h0, h0]
        have heq : (0 + L - 1) % L = L - 1 := by
          rw [Nat.zero_add, Nat.mod_eq_of_lt (by omega)]
        rw [heq]
        cases hg : pl.tracks.get? (L - 1) <;> simp [loadAndPlayTrack, hg]
      · rw [if_neg h0]
        have heq : (s.currentEventIndex + L - 1) % L = s.currentEventIndex - 1 := by
          rw [show s.currentEventIndex + L - 1 = s.currentEventIndex - 1 + L by omega,
            Nat.add_mod_right, Nat.mod_eq_of_lt (by omega)]
        rw [heq]
        cases hg : pl.tracks.get? (s.currentEventIndex - 1) <;>
          simp [loadAndPlayTrack, hg]

/-- C8 witness: a three-track ambient playlist at the last index wraps to 0
on skipNext and to 1 on skipPrevious. -/
theorem skip_wraps_modulo_witness :
    (ambientThreeState.currentMode = AudioMode.bgm ∧
     ambientThreeState.bgmTracks.length = 3 ∧ 1 ≤ 3 ∧
     ambientThreeState.currentBgmIndex < 3) ∧
    ((skipNext ambientThreeState).currentBgmIndex = (ambientThreeState.currentBgmIndex + 1) % 3 ∧
     (skipPrevious ambientThreeState).currentBgmIndex =
       (ambientThreeState.currentBgmIndex + 3 - 1) % 3) :=
  ⟨⟨by decide, by decide, by decide, by decide⟩,
   (skip_wraps_modulo ambientThreeState).1 3 (by decide) (by decide) (by decide) (by decide)⟩

/-! ## Lemmas about the stable insertion sort and set deduplication -/

/-- Membership in an insertion step. -/
theorem mem_insertLe {α : Type} (le : α → α → Bool) (x a : α) :
    ∀ l : List α, a ∈ insertLe le x l ↔ a = x ∨ a ∈ l := by
  intro l
  induction l with
  | nil => simp [insertLe]
  | cons y ys ih =>
    by_cases h : le y x = true
    · simp only [insertLe, if_pos h, List.mem_cons, ih]
      tauto
    · simp only [insertLe, if_neg h, List.mem_cons]

/-- Membership in the stable sort. -/
theorem mem_sortByLe {α : Type} (le : α → α → Bool) (a : α) (l : List α) :
    a ∈ sortByLe le l ↔ a ∈ l := by
  suffices h : ∀ (l acc : List α), a ∈ l.foldl (fun acc x => insertLe le x acc) acc ↔
      a ∈ acc ∨ a ∈ l by
    have := h l []
    simpa [sortByLe] using this
  intro l
  induction l with
  | nil => simp
  | cons x xs ih =>
    intro acc
    simp only [List.foldl_cons, ih, mem_insertLe, List.mem_cons]
    tauto

/-- An insertion step permutes to consing. -/
theorem insertLe_perm {α : Type} (le : α → α → Bool) (x : α) :
    ∀ l : List α, List.Perm (insertLe le x l) (x :: l) := by
  intro l
  induction l with
  | nil => simp [insertLe]
  | cons y ys ih =>
    by_cases h : le y x = true
    · simp only [insertLe, if_pos h]
      exact List.Perm.trans (List.Perm.cons y ih) (List.Perm.swap x y ys)
    · simp [insertLe, if_neg h]

/-- The stable sort is a permutation of its input. -/
theorem sortByLe_perm {α : Type} (le : α → α → Bool) (l : List α) :
    List.Perm (sortByLe le l) l := by
  suffices h : ∀ (l acc : List α),
      List.Perm (l.foldl (fun acc x => insertLe le x acc) acc) (acc ++ l) by
    have := h l []
    simpa [sortByLe] using this
  intro l
  induction l with
  | nil => simp
  | cons x xs ih =>
    intro acc
    refine List.Perm.trans (ih (insertLe le x acc)) ?_
    have h1 : List.Perm (insertLe le x acc ++ xs) ((x :: acc) ++ xs) :=
      List.Perm.append_right xs (insertLe_perm le x acc)
    refine List.Perm.trans h1 ?_
    simpa using List.perm_middle.symm

/-- An insertion step preserves sortedness for a total transitive order. -/
theorem insertLe_sorted {α : Type} (le : α → α → Bool)
    (htot : ∀ a b, le a b = true ∨ le b a = true)
    (htrans : ∀ a b c, le a b = true → le b c = true → le a c = true)
    (x : α) :
    ∀ l : List α, List.Sorted (fun a b => le a b = true) l →
      List.Sorted (fun a b => le a b = true) (insertLe le x l) := by
  intro l
  induction l with
  | nil => intro _; simp [insertLe, List.Sorted]
  | cons y ys ih =>
    intro hs
    rw [List.sorted_cons] at hs
    by_cases h : le y x = true
    · rw [insertLe, if_pos h]
      rw [List.sorted_cons]
      refine ⟨?_, ih hs.2⟩
      intro b hb
      rcases (mem_insertLe le x b ys).mp hb with hbx | hby
      · rw [hbx]; exact h
      · exact hs.1 b hby
    · rw [insertLe, if_neg h]
      rw [List.sorted_cons]
      have hxy : le x y = true := by
        rcases htot x y with h1 | h1
        · exact h1
        · exact absurd h1 h
      refine ⟨?_, List.sorted_cons.mpr hs⟩
      intro b hb
      rcases List.mem_cons.mp hb with hby | hbys
      · rw [hby]; exact hxy
      · exact htrans x y b hxy (hs.1 b hbys)

/-- The stable sort sorts, for a total transitive order. -/
theorem sortByLe_sorted {α : Type} (le : α → α → Bool)
    (htot : ∀ a b, le a b = true ∨ le b a = true)
    (htrans : ∀ a b c, le a b = true → le b c = true → le a c = true)
    (l : List α) :
    List.Sorted (fun a b => le a b = true) (sortByLe le l) := by
  suffices h : ∀ (l acc : List α), List.Sorted (fun a b => le a b = true) acc →
      List.Sorted (fun a b => le a b = true) (l.foldl (fun acc x => insertLe le x acc) acc) by
    exact h l [] (by simp [List.Sorted])
  intro l
  induction l with
  | nil => intro acc h; simpa using h
  | cons x xs ih =>
    intro acc hacc
    exact ih (insertLe le x acc) (insertLe_sorted le htot htrans x acc hacc)

/-- Every element surviving deduplication was absent from the seen list. -/
theorem dedupFirst_not_seen {α : Type} [BEq α] [LawfulBEq α] :
    ∀ (l seen : List α) (a : α), a ∈ dedupFirst seen l → seen.contains a = false := by
  intro l
  induction l with
  | nil => intro seen a ha; simp [dedupFirst] at ha
  | cons x xs ih =>
    intro seen a ha
    by_cases hx : seen.contains x = true
    · rw [dedupFirst, if_pos hx] at ha
      exact ih seen a ha
    · rw [dedupFirst, if_neg hx] at ha
      rcases List.mem_cons.mp ha with hax | harest
      · rw [hax]
        simpa using hx
      · have := ih (x :: seen) a harest
        simp only [List.contains_cons, Bool.or_eq_false_iff] at this
        exact this.2

/-- Deduplication produces a duplicate-free list. -/
theorem dedupFirst_nodup {α : Type} [BEq α] [LawfulBEq α] :
    ∀ (l seen : List α), (dedupFirst seen l).Nodup := by
  intro l
  induction l with
  | nil => intro seen; simp [dedupFirst]
  | cons x xs ih =>
    intro seen
    by_cases hx : seen.contains x = true
    · rw [dedupFirst, if_pos hx]
      exact ih seen
    · rw [dedupFirst, if_neg hx]
      refine List.nodup_cons.mpr ⟨?_, ih (x :: seen)⟩
      intro hmem
      have := dedupFirst_not_seen xs (x :: seen) x hmem
      simp at this

/-! ## Theorems about config import validation -/

/-- C4 (code evaluation at the failing input): the import validator accepts
a structurally complete config whose event playlist contains a track of
kind markdown; the tracks check only requires valid file references of any
supported kind, never kind audio. -/
theorem validateConfig_accepts_markdown_track :
    validateConfig mdTrackConfig = true ∧
    getField mdTrack "type" = some (JVal.jstr "markdown") :=
  ⟨rfl, rfl⟩

/-- C5 counterexample: the import validator accepts a config whose pcStats
names a character, Bob, who is absent from the (empty) player character
roster, so a successful import does not guarantee the stats-keys-subset
invariant. -/
theorem validateConfig_accepts_stray_stats :
    validateConfig strayStatsConfig = true ∧
    jPcStatsNames strayStatsConfig = ["Bob"] ∧
    jPlayerCharacterNames strayStatsConfig = [] :=
  ⟨rfl, rfl, rfl⟩

/-- The name column of the raw stats rows coincides with the raw player
character names: both are derived from the same markdown files of the same
folder by the same filename transform. -/
theorem extractPCStatsRaw_names (entries : List FSEntry) :
    (extractPCStatsRaw entries).map PCStats.name = extractPCNamesRaw entries := by
  induction entries with
  | nil => rfl
  | cons e rest ih =>
    cases e with
    | dir n es =>
      simpa [extractPCStatsRaw, extractPCNamesRaw, List.filterMap_cons] using ih
    | file n content =>
      by_cases hext : extOf n ∈ MD_EXTS
      · by_cases hname : stripMdExt n = ""
        · simpa [extractPCStatsRaw, extractPCNamesRaw, List.filterMap_cons, hext, hname] using ih
        · simpa [extractPCStatsRaw, extractPCNamesRaw, List.filterMap_cons, hext, hname] using ih
      · simpa [extractPCStatsRaw, extractPCNamesRaw, List.filterMap_cons, hext] using ih

/-- C5 amended: every configuration produced by the folder scanner
satisfies the invariant: each name in the player-character stats list is a
member of the player-character name list (the import validator, by
contrast, does not enforce this).  -/
theorem scanner_stats_names_subset (folderName : String) (root : List FSEntry) (x : String)
    (hx : x ∈ (scanSessionFolder folderName root).pcStats.map PCStats.name) :
    x ∈ (scanSessionFolder folderName root).playerCharacters := by
  have hstats : (scanSessionFolder folderName root).pcStats = detectPlayerCharacterStats root := by
    unfold scanSessionFolder
    cases detectActs root <;> rfl
  have hpcs : (scanSessionFolder folderName root).playerCharacters =
      detectPlayerCharacters root := by
    unfold scanSessionFolder
    cases detectActs root <;> rfl
  rw [hstats] at hx
  rw [hpcs]
  unfold detectPlayerCharacterStats at hx
  unfold detectPlayerCharacters
  cases hf : pcsFolder root with
  | none => rw [hf] at hx; simp at hx
  | some es =>
    rw [hf] at hx
    unfold extractPCStats at hx
    unfold extractPCNames
    rcases List.mem_map.mp hx with ⟨st, hst, hname⟩
    have hst2 : st ∈ extractPCStatsRaw es :=
      (mem_sortByLe _ st (extractPCStatsRaw es)).mp hst
    have hx2 : x ∈ (extractPCStatsRaw es).map PCStats.name :=
      List.mem_map.mpr ⟨st, hst2, hname⟩
    rw [extractPCStatsRaw_names] at hx2
    exact (mem_sortByLe _ x (extractPCNamesRaw es)).mpr hx2

/-- C5 witness: the subset invariant applied to a concrete scanned tree
with one character sheet. -/
theorem scanner_stats_names_subset_witness :
    ("Bob" ∈ (scanSessionFolder "r" pcsTree).pcStats.map PCStats.name) ∧
    ("Bob" ∈ (scanSessionFolder "r" pcsTree).playerCharacters) :=
  ⟨by decide, scanner_stats_names_subset "r" pcsTree "Bob" (by decide)⟩

/-! ## Theorems about the folder scanner's act detection -/

/-- C6 counterexample: the act directories plan/act1 and images/act01 both
denote act number 1, yet the scanner produces two Parts, because detectActs
deduplicates by lowercased directory name, not by act number. -/
theorem scanner_two_parts_for_one_act_number :
    (scanSessionFolder "root" leadingZeroTree).parts.length = 2 ∧
    dedupFirst [] ((detectActs leadingZeroTree).map actNumOf) = [1] :=
  ⟨by decide, by decide⟩

/-- C6 amended: when any act directory exists, the scanner produces exactly
one Part per distinct lowercased act-directory name (so exactly one per act
number whenever the names for a number coincide after lowercasing), in
ascending order of act number; on the union fixture with plan/act1,
plan/act3 and images/act2 only, exactly three Parts result, named Act 1,
Act 2, Act 3 in ascending order. -/
theorem scanner_one_part_per_act_name (folderName : String) (root : List FSEntry)
    (h : detectActs root ≠ []) :
    (scanSessionFolder folderName root).parts.length = (detectActs root).length ∧
    (detectActs root).Nodup ∧
    List.Sorted (fun a b => actNumOf a ≤ actNumOf b) (detectActs root) ∧
    (scanSessionFolder "root" unionActsTree).parts.map SPart.name =
      ["Act 1", "Act 2", "Act 3"] := by
  refine ⟨?_, ?_, ?_, by decide⟩
  · rcases hacts : detectActs root with _ | ⟨a, as⟩
    · exact absurd hacts h
    · simp [scanSessionFolder, hacts]
  · have hperm := sortByLe_perm (fun a b => actNumOf a ≤ actNumOf b)
      (dedupFirst [] (detectActsRaw root))
    have hnodup := dedupFirst_nodup (detectActsRaw root) ([] : List String)
    exact (hperm.nodup_iff).mpr hnodup
  · have hsorted := sortByLe_sorted (fun a b => decide (actNumOf a ≤ actNumOf b))
      (fun a b => by
        rcases Nat.le_total (actNumOf a) (actNumOf b) with h1 | h1
        · exact Or.inl (decide_eq_true h1)
        · exact Or.inr (decide_eq_true h1))
      (fun a b c h1 h2 =>
        decide_eq_true (Nat.le_trans (of_decide_eq_true h1) (of_decide_eq_true h2)))
      (dedupFirst [] (detectActsRaw root))
    exact hsorted.imp (fun h => of_decide_eq_true h)

/-- C6 witness: the amended statement applied to the union fixture. -/
theorem scanner_one_part_per_act_name_witness :
    detectActs unionActsTree ≠ [] ∧
    (scanSessionFolder "root" unionActsTree).parts.length = (detectActs unionActsTree).length :=
  ⟨by decide, (scanner_one_part_per_act_name "root" unionActsTree (by decide)).1⟩

/-! ## Theorems about stat extraction -/

/-- Every value returned by extractStat is positive. -/
theorem extractStat_pos (content : String) :
    ∀ (pats : List (String → Option Nat)) (v : Nat),
      extractStat content pats = some v → 0 < v := by
  intro pats
  induction pats with
  | nil => intro v hv; simp [extractStat] at hv
  | cons p rest ih =>
    intro v hv
    rcases hp : p content with _ | w
    · simp only [extractStat, hp] at hv
      exact ih v hv
    · simp only [extractStat, hp] at hv
      by_cases hw : 0 < w
      · rw [if_pos hw] at hv
        cases hv
        exact hw
      · rw [if_neg hw] at hv
        exact ih v hv

/-- When no pattern captures a positive value, extractStat is null. -/
theorem extractStat_none (content : String) :
    ∀ pats : List (String → Option Nat),
      (∀ p, p ∈ pats → ∀ v, p content = some v → v = 0) →
      extractStat content pats = none := by
  intro pats
  induction pats with
  | nil => intro _; rfl
  | cons p rest ih =>
    intro hall
    rcases hp : p content with _ | w
    · simp only [extractStat, hp]
      exact ih (fun q hq v hv => hall q (List.mem_cons_of_mem p hq) v hv)
    · have hw : w = 0 := hall p (List.mem_cons_self p rest) w hp
      simp only [extractStat, hp, hw, lt_self_iff_false, if_false]
      exact ih (fun q hq v hv => hall q (List.mem_cons_of_mem p hq) v hv)

/-- C7: extractStat tries the patterns in order and the first pattern whose
leftmost match captures a positive integer wins; only positive integers are
accepted, null results otherwise; a sheet containing both HP 30 and Hit
Points 45 lines resolves to 30 through the first pattern. -/
theorem extractStat_fallback_order (content : String)
    (pats : List (String → Option Nat)) :
    (∀ v, extractStat content pats = some v → 0 < v) ∧
    (∀ p rest v, pats = p :: rest → p content = some v → 0 < v →
      extractStat content pats = some v) ∧
    ((∀ p, p ∈ pats → ∀ w, p content = some w → w = 0) →
      extractStat content pats = none) ∧
    extractStat hpBothContent HP_PATTERNS = some 30 := by
  refine ⟨extractStat_pos content pats, ?_, extractStat_none content pats, by decide⟩
  intro p rest v hpats hp hv
  simp only [hpats, extractStat, hp, if_pos hv]

/-- C7 witness: the fallback chain applied to the concrete two-line sheet,
discharging the hypotheses at the first HP pattern. -/
theorem extractStat_fallback_order_witness :
    (HP_PATTERNS = runPat (tokenPatAt ['h', 'p']) :: HP_PATTERNS.tail ∧
     runPat (tokenPatAt ['h', 'p']) hpBothContent = some 30 ∧ 0 < 30) ∧
    extractStat hpBothContent HP_PATTERNS = some 30 :=
  ⟨⟨rfl, by decide, by decide⟩,
   (extractStat_fallback_order hpBothContent HP_PATTERNS).2.1
     (runPat (tokenPatAt ['h', 'p'])) HP_PATTERNS.tail 30 rfl (by decide) (by decide)⟩

/-! ## Theorems about the search wrapper -/

/-- C9: search returns the empty list for a blank query or when no index
has been built, returns the empty list rather than propagating when the
index lookup throws, and never returns more than maxResults results. -/
theorem searchDocs_contract (snippet : String → String → String) (st : SearchState)
    (query : String) (maxResults : Nat) :
    ((st.index = none ∨ strTrim query = "") →
      searchDocs snippet st query maxResults = []) ∧
    (∀ f e, st.index = some f → f query = Except.error e →
      searchDocs snippet st query maxResults = []) ∧
    (searchDocs snippet st query maxResults).length ≤ maxResults := by
  refine ⟨?_, ?_, ?_⟩
  · intro h
    rcases h with h | h
    · simp [searchDocs, h]
    · rcases hidx : st.index with _ | f
      · simp [searchDocs, hidx]
      · simp [searchDocs, hidx, h]
  · intro f e hidx herr
    simp only [searchDocs, hidx]
    by_cases hq : strTrim query = ""
    · rw [if_pos hq]
    · rw [if_neg hq]
      simp only [herr]
  · rcases hidx : st.index with _ | f
    · simp [searchDocs, hidx]
    · simp only [searchDocs, hidx]
      by_cases hq : strTrim query = ""
      · simp [hq]
      · rw [if_neg hq]
        rcases hres : f query with e | results
        · simp
        · refine le_trans (List.length_filterMap_le _ _) ?_
          exact List.length_take_le _ _

/-- C9 witness: the contract applied at a blank query over the one-document
state, and the result bound at a live query. -/
theorem searchDocs_contract_witness :
    ((oneDocSearchState.index = none ∨ strTrim "" = "") ∧
     searchDocs (fun c _ => c) oneDocSearchState "" 10 = []) ∧
    (searchDocs (fun c _ => c) oneDocSearchState "ruins" 10).length ≤ 10 :=
  ⟨⟨Or.inr (by decide),
    (searchDocs_contract (fun c _ => c) oneDocSearchState "" 10).1 (Or.inr (by decide))⟩,
   (searchDocs_contract (fun c _ => c) oneDocSearchState "ruins" 10).2.2⟩

end TSM
